import Mathlib

/-!
Verification of the Linear UCB bandit fragment of the tf-agents repository.

The development shallowly embeds the numerical core of the repository:
the per-arm ridge-regression statistics and their batch update
(exercised by `bandits/agents/lin_ucb_agent_test.py`), the scoring and
selection pipeline of `bandits/policies/lin_ucb_policy.py`, the
construction-time validation of that policy, the dtype validation of the
policy base class, and the auto-resetting environment wrapper.

Machine floating-point arithmetic is embedded as exact field arithmetic:
the statistics layer works over `ℚ`, and the scoring layer is generic
over a linear ordered field together with an interpretation of the
square-root primitive, so that every algebraic identity of the code is
stated exactly.
-/

namespace LinUCB

open Matrix

/-! ### The data consumed by an update

A batch entry is one (context, action, reward) triple, as extracted from
a trajectory by the agent (spec section 3: ordered sequence of
(context vector, chosen arm, scalar reward)). -/

structure BanditSample (d : ℕ) where
  context : Fin d → ℚ
  action : ℕ
  reward : ℚ
deriving DecidableEq

/-- The sub-batch of samples attributed to arm `k`; this embeds the
`tf.dynamic_partition(data=..., partitions=action, ...)` grouping used in
`lin_ucb_agent_test.py` (order preserving, one bucket per arm). -/
def observationsForArm {d : ℕ} (k : ℕ) (batch : List (BanditSample d)) :
    List (BanditSample d) :=
  batch.filter (fun s => s.action = k)

/-- `X_k^T X_k`: the sum of outer products of the contexts of a sub-batch,
embedding `tf.matmul(observations_for_arm, observations_for_arm,
transpose_a=True)` from `lin_ucb_agent_test.py`. -/
def outerProductSum {d : ℕ} (samples : List (BanditSample d)) :
    Matrix (Fin d) (Fin d) ℚ :=
  (samples.map (fun s => Matrix.vecMulVec s.context s.context)).sum

/-- `X_k^T r_k`: the reward-weighted sum of the contexts of a sub-batch.
`bandit_utils.sum_reward_weighted_observations` itself is not under
`src/`; the spec (section 4.2) describes it as the reward-weighted sum of
contexts, which this definition follows. -/
def sumRewardWeightedObservations {d : ℕ} (samples : List (BanditSample d)) :
    Fin d → ℚ :=
  (samples.map (fun s => s.reward • s.context)).sum

/-! ### The expected statistics computed by the in-repository test

`lin_ucb_agent_test.py::testLinearUCBUpdateWithForgetting` computes, for
each arm and starting from the initial identity/zero state, the expected
covariance matrix and data vector after one `train` call with forgetting
factor `gamma`.  `true_fn` (taken when the arm received samples) yields
`gamma * eye + X^T X` and the reward-weighted sum; `false_fn` (zero
samples) yields `eye` and `zeros` unchanged. -/

/-- Expected covariance matrix for one arm after the first update,
transcribed from the `tf.cond(num_samples > 0, true_fn, false_fn)`
expression of `testLinearUCBUpdateWithForgetting`. -/
def testExpectedCov {d : ℕ} (gamma : ℚ) (samples : List (BanditSample d)) :
    Matrix (Fin d) (Fin d) ℚ :=
  if 0 < samples.length then
    gamma • (1 : Matrix (Fin d) (Fin d) ℚ) + outerProductSum samples
  else
    (1 : Matrix (Fin d) (Fin d) ℚ)

/-- Expected data vector for one arm after the first update, transcribed
from the same `tf.cond` of `testLinearUCBUpdateWithForgetting`. -/
def testExpectedDataVec {d : ℕ} (samples : List (BanditSample d)) :
    Fin d → ℚ :=
  if 0 < samples.length then sumRewardWeightedObservations samples else 0

/-! ### Per-arm statistics and the agent update -/

/-- The statistics owned for one arm (spec section 3): covariance-like
matrix, reward-weighted data vector and sample count. -/
structure ArmStats (d : ℕ) where
  cov : Matrix (Fin d) (Fin d) ℚ
  dataVec : Fin d → ℚ
  numSamples : ℚ
deriving DecidableEq

/-- The initial per-arm state: identity covariance, zero data vector,
zero samples (spec section 3 and `testInitializeAgent`). -/
def initialArmStats (d : ℕ) : ArmStats d :=
  { cov := 1, dataVec := 0, numSamples := 0 }

/-- Modelled from the spec: `lin_ucb_agent.LinearUCBAgent._train` is not
under `src/`; its per-arm update is modelled from spec section 4.2.  For
an arm with `n_k > 0` samples in the batch the update is
`cov <- gamma * cov + X_k^T X_k`, `data <- gamma * data + X_k^T r_k`,
`num <- num + n_k`.  For an arm with `n_k == 0` the spec flags the decay
semantics as an open question; the in-repository test
(`testLinearUCBUpdateWithForgetting`, `false_fn`) pins the reference
behaviour at the initial state to leaving the statistics unchanged
(identity covariance and zero vector, not scaled by `gamma`), so the
model leaves a zero-sample arm unchanged. -/
def updateArmStats {d : ℕ} (gamma : ℚ) (st : ArmStats d)
    (samples : List (BanditSample d)) : ArmStats d :=
  if 0 < samples.length then
    { cov := gamma • st.cov + outerProductSum samples
      dataVec := gamma • st.dataVec + sumRewardWeightedObservations samples
      numSamples := st.numSamples + samples.length }
  else st

/-- One `train` step over the whole per-arm store: partition the batch by
arm and update each arm from its own sub-batch. -/
def trainStep {d : ℕ} (gamma : ℚ) (stats : ℕ → ArmStats d)
    (batch : List (BanditSample d)) : ℕ → ArmStats d :=
  fun k => updateArmStats gamma (stats k) (observationsForArm k batch)

/-- The all-arms initial store. -/
def initialStats (d : ℕ) : ℕ → ArmStats d := fun _ => initialArmStats d

/-! ### The Linear UCB policy (`lin_ucb_policy.py::_distribution`)

The scoring pipeline is generic over a linear ordered field `F` (the
exact counterpart of the floating-point dtype of the code) and over
`sqrtF`, the interpretation of the `tf.sqrt` primitive; the intended
instance is `F = ℝ` with the real square root, and rational instances
make the pipeline executable for concrete checks. -/

/-- The mutable data the policy reads: one covariance matrix, data
vector, sample count, and (optionally used) eigenvalue vector and
eigenvector matrix per arm, plus the scalar configuration.
`useEigendecomp` embeds the `self._use_eigendecomp` flag, set in
`__init__` exactly when a nonempty `eig_matrix` list is supplied. -/
structure PolicyVars (F : Type) (K d : ℕ) where
  covMatrix : Fin K → Matrix (Fin d) (Fin d) F
  dataVector : Fin K → Fin d → F
  numSamples : Fin K → F
  eigVals : Fin K → Fin d → F
  eigMatrix : Fin K → Matrix (Fin d) (Fin d) F
  useEigendecomp : Bool
  alpha : F
  tikhonovWeight : F

variable {F : Type} [LinearOrderedField F] {K d B : ℕ}

/-- Modelled from the spec: `linalg.conjugate_gradient_solve` is not
under `src/`; the spec (sections 2 and 4.3) describes it as a dense
solver of `A x = rhs` for the regularized covariance matrix, so it is
modelled as the exact solve, written through the determinant and the
adjugate so that it stays executable (over a field this equals
multiplication by the inverse matrix). -/
def conjugateGradientSolve (A : Matrix (Fin d) (Fin d) F)
    (rhs : Matrix (Fin d) (Fin B) F) : Matrix (Fin d) (Fin B) F :=
  (A.det⁻¹ • A.adjugate) * rhs

/-- The per-arm batched solve result `a_inv_x` of `_distribution`
(lines 157-171 of `lin_ucb_policy.py`): with eigendecomposition,
`V * diag(1/(eig_vals + tikhonov_weight)) * V^T * observation^T`
(the `einsum` scales row `j` of `q_t_b` by `lambda_inv j`); without it,
the solve of `(cov_matrix + tikhonov_weight * eye) x = observation^T`. -/
def aInvX (v : PolicyVars F K d) (observation : Matrix (Fin B) (Fin d) F)
    (k : Fin K) : Matrix (Fin d) (Fin B) F :=
  if v.useEigendecomp then
    v.eigMatrix k *
      Matrix.of (fun j b =>
        (1 / (v.eigVals k j + v.tikhonovWeight)) *
          ((v.eigMatrix k)ᵀ * observationᵀ) j b)
  else
    conjugateGradientSolve
      (v.covMatrix k + v.tikhonovWeight • (1 : Matrix (Fin d) (Fin d) F))
      observationᵀ

/-- `est_mean_reward = einsum(j,jk->k, data_vector[k], a_inv_x)`:
the data vector row multiplied into the solve result. -/
def estMeanReward (v : PolicyVars F K d)
    (observation : Matrix (Fin B) (Fin d) F) (k : Fin K) : Fin B → F :=
  v.dataVector k ᵥ* aInvX v observation k

/-- `ci = tensor_diag_part(matmul(observation, a_inv_x))`: the diagonal
of the product of the observation batch with the solve result. -/
def confidenceIntervals (v : PolicyVars F K d)
    (observation : Matrix (Fin B) (Fin d) F) (k : Fin K) : Fin B → F :=
  fun b => (observation * aInvX v observation k) b b

/-- `p_values[k] = est_mean_reward + alpha * sqrt(ci)`: the per-arm,
per-context upper-confidence score. -/
def pValues (sqrtF : F → F) (v : PolicyVars F K d)
    (observation : Matrix (Fin B) (Fin d) F) (k : Fin K) : Fin B → F :=
  fun b =>
    estMeanReward v observation k b +
      v.alpha * sqrtF (confidenceIntervals v observation k b)

/-- Value and index of the first maximum of `a :: l` (index relative to
`a` at position `0`): on a tie the earlier position wins. -/
def firstMax {α : Type} [LinearOrder α] : α → List α → α × ℕ
  | a, [] => (a, 0)
  | a, b :: l =>
    let m := firstMax b l
    if a < m.1 then (m.1, m.2 + 1) else (a, 0)

/-- The index of the first maximum of a list; this embeds `tf.argmax`,
which returns the smallest index attaining the maximum. -/
def argmaxFirst {α : Type} [LinearOrder α] : List α → ℕ
  | [] => 0
  | a :: l => (firstMax a l).2

/-- `chosen_actions = argmax(squeeze(stack(p_values, axis=-1)), axis=-1)`:
for each context of the batch, the first arm index attaining the maximal
score. -/
def chosenActions (sqrtF : F → F) (v : PolicyVars F K d)
    (observation : Matrix (Fin B) (Fin d) F) : Fin B → ℕ :=
  fun b => argmaxFirst (List.ofFn (fun k => pValues sqrtF v observation k b))

/-- The whole `_distribution` call as a state-passing step: it emits the
deterministic chosen actions and hands the variables through.  The
source method only reads `self._cov_matrix`, `self._data_vector`,
`self._num_samples`, `self._eig_vals` and `self._eig_matrix`; it
contains no assignment to any of them. -/
def policyDistribution (sqrtF : F → F) (v : PolicyVars F K d)
    (observation : Matrix (Fin B) (Fin d) F) :
    (Fin B → ℕ) × PolicyVars F K d :=
  (chosenActions sqrtF v observation, v)

/-! ### Per-context form of the solve: helper definitions -/

/-- The eigendecomposition-path solve applied to a single context:
`V * diag(1/(lam + t)) * V^T * x` written through `mulVec`. -/
def eigSolveVec (V : Matrix (Fin d) (Fin d) F) (lam : Fin d → F) (t : F)
    (x : Fin d → F) : Fin d → F :=
  V *ᵥ fun j => (1 / (lam j + t)) * (Vᵀ *ᵥ x) j

/-- The direct-path solve applied to a single context. -/
def directSolveVec (A : Matrix (Fin d) (Fin d) F) (x : Fin d → F) :
    Fin d → F :=
  (A.det⁻¹ • A.adjugate) *ᵥ x

/-- The solve the policy performs for one context vector, on whichever
path `useEigendecomp` selects. -/
def solveForContext (v : PolicyVars F K d) (k : Fin K) (x : Fin d → F) :
    Fin d → F :=
  if v.useEigendecomp then
    eigSolveVec (v.eigMatrix k) (v.eigVals k) v.tikhonovWeight x
  else
    directSolveVec
      (v.covMatrix k + v.tikhonovWeight • (1 : Matrix (Fin d) (Fin d) F)) x

/-- Column `b` of the batched solve result is the per-context solve of
row `b` of the observation batch. -/
lemma aInvX_col (v : PolicyVars F K d)
    (observation : Matrix (Fin B) (Fin d) F) (k : Fin K) (b : Fin B)
    (j : Fin d) : aInvX v observation k j b =
      solveForContext v k (observation b) j := by
  unfold aInvX solveForContext
  by_cases h : v.useEigendecomp <;>
    simp [h, conjugateGradientSolve, eigSolveVec, directSolveVec,
      Matrix.mul_apply, Matrix.mulVec, Matrix.dotProduct,
      Matrix.transpose_apply, Finset.mul_sum, mul_assoc]

/-- The estimated mean reward for context `b` is the dot product of the
data vector with the per-context solve. -/
lemma estMeanReward_eq (v : PolicyVars F K d)
    (observation : Matrix (Fin B) (Fin d) F) (k : Fin K) (b : Fin B) :
    estMeanReward v observation k b =
      v.dataVector k ⬝ᵥ solveForContext v k (observation b) := by
  unfold estMeanReward
  simp [Matrix.vecMul, Matrix.dotProduct, aInvX_col]

/-- The confidence term for context `b` is the dot product of that
context with its own solve. -/
lemma confidenceIntervals_eq (v : PolicyVars F K d)
    (observation : Matrix (Fin B) (Fin d) F) (k : Fin K) (b : Fin B) :
    confidenceIntervals v observation k b =
      observation b ⬝ᵥ solveForContext v k (observation b) := by
  unfold confidenceIntervals
  simp [Matrix.mul_apply, Matrix.dotProduct, aInvX_col]

/-! ### Construction-time validation (`LinearUCBPolicy.__init__`) -/

/-- The distinct configuration failures `__init__` can raise (each is a
`ValueError` in the source; lines 101-133 of `lin_ucb_policy.py`). -/
inductive ConfigError
  | covDataSizeMismatch
  | numSamplesSizeMismatch
  | armCountMismatch
  | covDimMismatch
  | dataVecDimMismatch
deriving DecidableEq

/-- The validation sequence of `LinearUCBPolicy.__init__`, over the shape
data the checks compare: the lengths of the `cov_matrix`, `data_vector`
and `num_samples` lists, `actionMax = action_spec.maximum` (so the
action-space cardinality is `actionMax + 1`), the observation dimension
of the time-step spec, and the leading dimensions of `cov_matrix[0]` and
`data_vector[0]`.  Checks run in source order; the non-list and nested
action-spec rejections are enforced by the types of this embedding. -/
def linUCBPolicyInitChecks (covLen dataLen numSamplesLen actionMax
    obsDim covDim dataDim : ℕ) : Except ConfigError Unit :=
  if covLen ≠ dataLen then .error .covDataSizeMismatch
  else if numSamplesLen ≠ covLen then .error .numSamplesSizeMismatch
  else if actionMax + 1 ≠ covLen then .error .armCountMismatch
  else if obsDim ≠ covDim then .error .covDimMismatch
  else if obsDim ≠ dataDim then .error .dataVecDimMismatch
  else .ok ()

/-! ### Dtype validation of the policy base class -/

/-- Tensor element types appearing in the dtype-validation tests. -/
inductive Dtype
  | int32
  | int64
  | float32
  | float64
deriving DecidableEq

/-- Modelled from the spec: `tf_policy.Base.action` is not under `src/`
(only `tf_policy_test.py` is).  Spec section 7: a `DtypeMismatch` is
surfaced when the action output of an agent does not match the element
type declared by its action specification, failing loudly instead of
coercing.  An action specification and an action output are represented
by the flattened lists of their element types (a single action is a
one-element list, a list-structured action a longer one, matching
`TFPolicyMismatchedDtypesListAction`); the call succeeds exactly when
every entry matches. -/
def policyActionCall (specDtypes outputDtypes : List Dtype) :
    Except Unit (List Dtype) :=
  if (specDtypes.zip outputDtypes).all (fun p => decide (p.1 = p.2)) then
    .ok outputDtypes
  else
    .error ()

/-! ### The auto-resetting environment adapter -/

/-- An external simulation environment, reduced to what the adapter
consumes: a reset state and a step function returning the next internal
state and the `done` flag (spec section 6: external step/reset calls;
observations and rewards are carried inside `S`). -/
structure GymEnv (S A : Type) where
  resetState : S
  stepFn : S → A → S × Bool

/-- The step types of the time-step abstraction, with
`is_first()/is_mid()/is_last()` corresponding to constructor equality. -/
inductive StepType
  | first
  | mid
  | last
deriving DecidableEq

/-- The adapter state: the wrapped environment state plus the `_done`
flag recording whether no episode is in progress. -/
structure WrapperState (S : Type) where
  envState : S
  done : Bool
deriving DecidableEq

/-- Modelled from the spec: `gym_wrapper.GymWrapper` is not under `src/`
(only its tests are).  The adapter is modelled from the time-step
abstraction of spec sections 1 and 6 and the reset/step contract pinned
by `gym_wrapper_test.py`: construction marks no episode in progress, so
the first `step` behaves like `reset`
(`test_automatic_reset_after_create`). -/
def gymWrapperCreate {S A : Type} (g : GymEnv S A) : WrapperState S :=
  { envState := g.resetState, done := true }

/-- `reset`: restart the wrapped environment and emit a FIRST time step
(`test_wrapped_cartpole_reset`). -/
def wrapperReset {S A : Type} (g : GymEnv S A) :
    WrapperState S × StepType :=
  ({ envState := g.resetState, done := false }, .first)

/-- `step`: when no episode is in progress the call behaves like `reset`;
otherwise the wrapped environment advances and the emitted time step is
LAST exactly when the environment reports `done`
(`test_automatic_reset_after_done`). -/
def wrapperStep {S A : Type} (g : GymEnv S A) (w : WrapperState S)
    (a : A) : WrapperState S × StepType :=
  if w.done then wrapperReset g
  else
    let r := g.stepFn w.envState a
    ({ envState := r.1, done := r.2 }, if r.2 then .last else .mid)

/-! ### Properties of the first-maximum selection -/

section FirstMaxLemmas

variable {α : Type} [LinearOrder α]

lemma firstMax_le (a : α) (l : List α) : a ≤ (firstMax a l).1 := by
  induction l generalizing a with
  | nil => simp [firstMax]
  | cons b t ih =>
    by_cases h : a < (firstMax b t).1
    · simp [firstMax, h, le_of_lt h]
    · simp [firstMax, h]

lemma firstMax_forall_le (a : α) (l : List α) :
    ∀ x ∈ l, x ≤ (firstMax a l).1 := by
  induction l generalizing a with
  | nil => simp
  | cons c t ih =>
    have hle : (firstMax c t).1 ≤ (firstMax a (c :: t)).1 := by
      by_cases h : a < (firstMax c t).1
      · simp [firstMax, h]
      · simpa [firstMax, h] using not_lt.mp h
    intro x hx
    rcases List.mem_cons.mp hx with rfl | hx
    · exact le_trans (firstMax_le x t) hle
    · exact le_trans (ih c x hx) hle

lemma firstMax_idx_lt (a : α) (l : List α) :
    (firstMax a l).2 < l.length + 1 := by
  induction l generalizing a with
  | nil => simp [firstMax]
  | cons b t ih =>
    by_cases h : a < (firstMax b t).1
    · have := ih b
      simp only [firstMax, h, if_true, List.length_cons]
      omega
    · simp [firstMax, h]

lemma firstMax_getD (a : α) (l : List α) (d0 : α) :
    (a :: l).getD (firstMax a l).2 d0 = (firstMax a l).1 := by
  induction l generalizing a with
  | nil => simp [firstMax]
  | cons b t ih =>
    by_cases h : a < (firstMax b t).1
    · have h1 : firstMax a (b :: t) =
          ((firstMax b t).1, (firstMax b t).2 + 1) := by
        simp [firstMax, h]
      rw [h1]
      simpa using ih b
    · have h1 : firstMax a (b :: t) = (a, 0) := by simp [firstMax, h]
      rw [h1]
      simp

lemma firstMax_lt_of_lt_idx (a : α) (l : List α) (d0 : α) :
    ∀ i < (firstMax a l).2, (a :: l).getD i d0 < (firstMax a l).1 := by
  induction l generalizing a with
  | nil => intro i hi; simp [firstMax] at hi
  | cons b t ih =>
    intro i hi
    by_cases h : a < (firstMax b t).1
    · have h1 : firstMax a (b :: t) =
          ((firstMax b t).1, (firstMax b t).2 + 1) := by
        simp [firstMax, h]
      rw [h1] at hi ⊢
      match i with
      | 0 => simpa using h
      | j + 1 =>
        have hj : j < (firstMax b t).2 := by omega
        simpa using ih b j hj
    · have h1 : firstMax a (b :: t) = (a, 0) := by simp [firstMax, h]
      rw [h1] at hi
      exact absurd hi (Nat.not_lt_zero i)

/-- Master property of `argmaxFirst` on a nonempty list: the returned
index is in range, attains the maximum, and every strictly earlier
position holds a strictly smaller value. -/
lemma argmaxFirst_spec (l : List α) (hl : 0 < l.length) (d0 : α) :
    argmaxFirst l < l.length ∧
    (∀ i < l.length, l.getD i d0 ≤ l.getD (argmaxFirst l) d0) ∧
    ∀ i < argmaxFirst l, l.getD i d0 < l.getD (argmaxFirst l) d0 := by
  match l with
  | [] => simp at hl
  | a :: t =>
    have hidx : argmaxFirst (a :: t) = (firstMax a t).2 := rfl
    have hget : (a :: t).getD (argmaxFirst (a :: t)) d0 = (firstMax a t).1 :=
      firstMax_getD a t d0
    refine ⟨?_, ?_, ?_⟩
    · rw [hidx, List.length_cons]
      exact firstMax_idx_lt a t
    · intro i hi
      rw [hget]
      match i with
      | 0 => simpa using firstMax_le a t
      | j + 1 =>
        have hj : j < t.length := by
          simpa [List.length_cons] using hi
        have hmem : t.getD j d0 ∈ t := by
          rw [List.getD_eq_getElem t d0 hj]
          exact List.getElem_mem hj
        simpa using firstMax_forall_le a t _ hmem
    · intro i hi
      rw [hget]
      exact firstMax_lt_of_lt_idx a t d0 i hi

end FirstMaxLemmas

/-! ### Equivalence of the two solve paths -/

/-- Core algebraic fact behind the eigendecomposition path: if `V` is
orthogonal, `cov = V * diag(lam) * V^T`, and every shifted eigenvalue
`lam j + t` is nonzero, then applying
`V * diag(1/(lam + t)) * V^T` is exactly the solve of
`(cov + t * eye) x = b`. -/
lemma eigSolveVec_eq_directSolveVec
    (V : Matrix (Fin d) (Fin d) F) (lam : Fin d → F) (t : F)
    (cov : Matrix (Fin d) (Fin d) F)
    (hV : V * Vᵀ = 1)
    (hcov : cov = V * Matrix.diagonal lam * Vᵀ)
    (hlam : ∀ j, lam j + t ≠ 0) (x : Fin d → F) :
    eigSolveVec V lam t x = directSolveVec (cov + t • 1) x := by
  have hVt : Vᵀ * V = 1 := Matrix.mul_eq_one_comm.mp hV
  have hAdecomp : cov + t • (1 : Matrix (Fin d) (Fin d) F) =
      V * Matrix.diagonal (fun j => lam j + t) * Vᵀ := by
    have h1 : Matrix.diagonal (fun j => lam j + t) =
        Matrix.diagonal lam + t • (1 : Matrix (Fin d) (Fin d) F) := by
      rw [Matrix.smul_one_eq_diagonal, ← Matrix.diagonal_add]
    rw [h1, Matrix.mul_add, Matrix.add_mul, ← hcov, mul_smul_comm, mul_one,
      smul_mul_assoc, hV]
  have hright : (cov + t • (1 : Matrix (Fin d) (Fin d) F)) *
      (V * Matrix.diagonal (fun j => 1 / (lam j + t)) * Vᵀ) = 1 := by
    rw [hAdecomp]
    have hassoc : V * Matrix.diagonal (fun j => lam j + t) * Vᵀ *
        (V * Matrix.diagonal (fun j => 1 / (lam j + t)) * Vᵀ) =
        V * (Matrix.diagonal (fun j => lam j + t) * (Vᵀ * V) *
          Matrix.diagonal (fun j => 1 / (lam j + t))) * Vᵀ := by
      noncomm_ring
    rw [hassoc, hVt, mul_one, Matrix.diagonal_mul_diagonal]
    have hone : (fun j => (lam j + t) * (1 / (lam j + t))) =
        fun _ : Fin d => (1 : F) := by
      funext j
      exact mul_one_div_cancel (hlam j)
    rw [hone, Matrix.diagonal_one, mul_one, hV]
  have hinv : (cov + t • (1 : Matrix (Fin d) (Fin d) F))⁻¹ =
      V * Matrix.diagonal (fun j => 1 / (lam j + t)) * Vᵀ :=
    Matrix.inv_eq_right_inv hright
  have hds : directSolveVec (cov + t • (1 : Matrix (Fin d) (Fin d) F)) x =
      (cov + t • (1 : Matrix (Fin d) (Fin d) F))⁻¹ *ᵥ x := by
    rw [Matrix.inv_def, Ring.inverse_eq_inv]
    rfl
  have hdiag : (Matrix.diagonal fun j => 1 / (lam j + t)) *ᵥ (Vᵀ *ᵥ x) =
      fun j => 1 / (lam j + t) * (Vᵀ *ᵥ x) j := by
    funext j
    exact Matrix.mulVec_diagonal _ _ j
  rw [hds, hinv, ← Matrix.mulVec_mulVec, ← Matrix.mulVec_mulVec, hdiag]
  rfl

/-! ### Concrete instances used by the closed-form checks below -/

/-- A one-sample batch in dimension 5 whose only sample goes to arm 0,
matching the spec scenario K=5, d=5 with an arm (arm 1) receiving zero
samples. -/
def batchC1 : List (BanditSample 5) :=
  [{ context := fun _ => 1, action := 0, reward := 1 }]

/-- A one-sample batch in dimension 2 whose sample goes to arm 0. -/
def batchW2 : List (BanditSample 2) :=
  [{ context := ![1, 2], action := 0, reward := 3 }]

/-- A rational one-arm covariance store whose matrix is diagonal. -/
def covW3 : Fin 1 → Matrix (Fin 2) (Fin 2) ℚ := fun _ => Matrix.diagonal ![1, 3]

/-- A rational one-arm data-vector store. -/
def dataW3 : Fin 1 → Fin 2 → ℚ := fun _ => ![2, 5]

/-- The eigenvalues of `covW3`. -/
def lamW3 : Fin 1 → Fin 2 → ℚ := fun _ => ![1, 3]

/-- The (identity) eigenvector matrix of `covW3`. -/
def vmatW3 : Fin 1 → Matrix (Fin 2) (Fin 2) ℚ := fun _ => 1

/-- A one-context observation batch in dimension 2. -/
def obsW3 : Matrix (Fin 1) (Fin 2) ℚ := Matrix.of ![![1, 2]]

/-- A rational two-arm policy-variable store in dimension 1. -/
def vW5 : PolicyVars ℚ 2 1 :=
  ⟨fun _ => 1, fun _ => ![1], fun _ => 0, fun _ => ![0], fun _ => 1,
    false, 1, 0⟩

/-- A one-context observation batch in dimension 1. -/
def obsW5 : Matrix (Fin 1) (Fin 1) ℚ := Matrix.of ![![1]]

/-- A concrete external environment over natural-number states that
reports `done` after every step. -/
def gEnvW : GymEnv ℕ ℕ := { resetState := 0, stepFn := fun s _ => (s + 1, true) }

/-! ### Claims about the update rule -/

/-- Claim C1 counterexample: in the spec scenario (d = 5, gamma = 9/10,
an arm receiving zero samples in the batch, prior state the initial
identity), the expected covariance computed by the in-repository test
(`false_fn` of `testLinearUCBUpdateWithForgetting`) is the unscaled
identity, which differs from `gamma * I`; so the update does not scale a
zero-sample arm by `gamma`. -/
theorem zero_sample_gamma_scaling_counterexample :
    testExpectedCov (9 / 10) (observationsForArm 1 batchC1) = 1 ∧
    testExpectedCov (9 / 10) (observationsForArm 1 batchC1) ≠
      (9 / 10 : ℚ) • (1 : Matrix (Fin 5) (Fin 5) ℚ) := by
  have h0 : observationsForArm 1 batchC1 = [] := rfl
  have h1 : testExpectedCov (9 / 10) (observationsForArm 1 batchC1) = 1 := by
    rw [h0]
    simp [testExpectedCov]
  refine ⟨h1, ?_⟩
  rw [h1]
  intro hcontra
  have hentry := congrFun (congrFun hcontra 0) 0
  simp [Matrix.one_apply, Matrix.smul_apply] at hentry
  norm_num at hentry

/-- Claim C1 (amended): for every update with forgetting factor `gamma`
and every arm `k` that receives zero samples in the batch, the update
leaves the statistics of that arm exactly unchanged — no `gamma` scaling
is applied — so from the initial state the expected covariance and data
vector of the in-repository test are the identity and zero. -/
theorem zero_sample_arm_statistics_unchanged {d : ℕ} (gamma : ℚ)
    (stats : ℕ → ArmStats d) (batch : List (BanditSample d)) (k : ℕ)
    (h : observationsForArm k batch = []) :
    trainStep gamma stats batch k = stats k ∧
    testExpectedCov gamma (observationsForArm k batch) = 1 ∧
    testExpectedDataVec (observationsForArm k batch) = 0 := by
  refine ⟨?_, ?_, ?_⟩ <;>
    simp [trainStep, updateArmStats, testExpectedCov, testExpectedDataVec, h]

/-- Claim C1 (amended) witness: arm 1 receives no samples in `batchC1`,
and one update with gamma = 9/10 leaves its statistics unchanged. -/
theorem zero_sample_arm_statistics_unchanged_witness :
    trainStep (9 / 10) (initialStats 5) batchC1 1 = initialStats 5 1 :=
  (zero_sample_arm_statistics_unchanged (9 / 10) (initialStats 5) batchC1 1
    (by decide)).1

/-- Claim C2: for every batch and every arm `k` with `n_k > 0` samples,
one train step sets `cov_matrix[k]` to `gamma * cov_matrix[k] + X_k^T
X_k` and `data_vector[k]` to `gamma * data_vector[k] + X_k^T r_k`, where
`X_k`, `r_k` collect the batch entries with action `k`; moreover, from
the initial store the updated statistics coincide with the expected
values that `lin_ucb_agent_test.py` computes for every arm. -/
theorem lin_ucb_update_incremental_rule {d : ℕ} (gamma : ℚ)
    (stats : ℕ → ArmStats d) (batch : List (BanditSample d)) (k : ℕ) :
    (0 < (observationsForArm k batch).length →
      (trainStep gamma stats batch k).cov =
        gamma • (stats k).cov + outerProductSum (observationsForArm k batch) ∧
      (trainStep gamma stats batch k).dataVec =
        gamma • (stats k).dataVec +
          sumRewardWeightedObservations (observationsForArm k batch) ∧
      (trainStep gamma stats batch k).numSamples =
        (stats k).numSamples + (observationsForArm k batch).length) ∧
    (trainStep gamma (initialStats d) batch k).cov =
      testExpectedCov gamma (observationsForArm k batch) ∧
    (trainStep gamma (initialStats d) batch k).dataVec =
      testExpectedDataVec (observationsForArm k batch) := by
  refine ⟨fun h => ?_, ?_, ?_⟩
  · refine ⟨?_, ?_, ?_⟩ <;> simp [trainStep, updateArmStats, h]
  · by_cases h : 0 < (observationsForArm k batch).length <;>
      simp [trainStep, updateArmStats, testExpectedCov, initialStats,
        initialArmStats, h]
  · by_cases h : 0 < (observationsForArm k batch).length <;>
      simp [trainStep, updateArmStats, testExpectedDataVec, initialStats,
        initialArmStats, h]

/-- Claim C2 witness: a concrete one-sample batch for arm 0 in dimension
2, updated with gamma = 1/2 from the initial store. -/
theorem lin_ucb_update_incremental_rule_witness :
    (trainStep (1 / 2) (initialStats 2) batchW2 0).cov =
      (1 / 2 : ℚ) • (initialStats 2 0).cov +
        outerProductSum (observationsForArm 0 batchW2) :=
  ((lin_ucb_update_incremental_rule (1 / 2) (initialStats 2) batchW2 0).1
    (by decide)).1

/-- Claim C9: with gamma = 1 the update rule is batch-additive — for
every initial store and every two single-sample batches, updating with
the two batches sequentially equals updating with their concatenation in
one step, for every arm. -/
theorem gamma_one_update_batch_additive {d : ℕ} (stats : ℕ → ArmStats d)
    (e1 e2 : BanditSample d) :
    trainStep 1 (trainStep 1 stats [e1]) [e2] = trainStep 1 stats [e1, e2] := by
  funext k
  by_cases h1 : e1.action = k <;> by_cases h2 : e2.action = k <;>
    simp [trainStep, observationsForArm, List.filter, h1, h2, updateArmStats,
      outerProductSum, sumRewardWeightedObservations, one_smul, add_assoc,
      ArmStats.mk.injEq]
  norm_num

/-! ### Claims about the selection policy -/

/-- Claim C3: whenever the cached eigendecomposition is faithful (each
`eig_matrix[k]` orthogonal, `cov_matrix[k] = V diag(eig_vals[k]) V^T`,
and every shifted eigenvalue nonzero), the eigendecomposition path and
the direct solve path of `_distribution` compute equal solve results for
every context, hence equal per-arm scores and equal chosen actions on
the same statistics. -/
theorem eig_and_direct_selection_agree (sqrtF : F → F)
    (cov : Fin K → Matrix (Fin d) (Fin d) F) (dataV : Fin K → Fin d → F)
    (ns : Fin K → F) (lam : Fin K → Fin d → F)
    (V : Fin K → Matrix (Fin d) (Fin d) F) (alpha t : F)
    (observation : Matrix (Fin B) (Fin d) F)
    (hV : ∀ k, V k * (V k)ᵀ = 1)
    (hcov : ∀ k, cov k = V k * Matrix.diagonal (lam k) * (V k)ᵀ)
    (hlam : ∀ k j, lam k j + t ≠ 0) :
    (∀ (k : Fin K) (x : Fin d → F),
      eigSolveVec (V k) (lam k) t x = directSolveVec (cov k + t • 1) x) ∧
    pValues sqrtF
        (⟨cov, dataV, ns, lam, V, true, alpha, t⟩ : PolicyVars F K d)
        observation =
      pValues sqrtF ⟨cov, dataV, ns, lam, V, false, alpha, t⟩ observation ∧
    chosenActions sqrtF
        (⟨cov, dataV, ns, lam, V, true, alpha, t⟩ : PolicyVars F K d)
        observation =
      chosenActions sqrtF ⟨cov, dataV, ns, lam, V, false, alpha, t⟩
        observation := by
  have hsolve : ∀ (k : Fin K) (x : Fin d → F),
      eigSolveVec (V k) (lam k) t x = directSolveVec (cov k + t • 1) x :=
    fun k x =>
      eigSolveVec_eq_directSolveVec (V k) (lam k) t (cov k) (hV k) (hcov k)
        (hlam k) x
  have hsfc : ∀ (k : Fin K) (x : Fin d → F),
      solveForContext
          (⟨cov, dataV, ns, lam, V, true, alpha, t⟩ : PolicyVars F K d) k x =
        solveForContext
          (⟨cov, dataV, ns, lam, V, false, alpha, t⟩ : PolicyVars F K d) k
          x := by
    intro k x
    simpa [solveForContext] using hsolve k x
  have hp : pValues sqrtF
      (⟨cov, dataV, ns, lam, V, true, alpha, t⟩ : PolicyVars F K d)
      observation =
      pValues sqrtF ⟨cov, dataV, ns, lam, V, false, alpha, t⟩ observation := by
    funext k b
    simp only [pValues, estMeanReward_eq, confidenceIntervals_eq, hsfc]
  refine ⟨hsolve, hp, ?_⟩
  funext b
  simp only [chosenActions, hp]

/-- Claim C3 witness: a concrete one-arm store over `ℚ` whose cached
eigendecomposition is faithful; both paths choose the same action. -/
theorem eig_and_direct_selection_agree_witness :
    chosenActions id
        (⟨covW3, dataW3, fun _ => 0, lamW3, vmatW3, true, 1, 1⟩ :
          PolicyVars ℚ 1 2) obsW3 =
      chosenActions id
        ⟨covW3, dataW3, fun _ => 0, lamW3, vmatW3, false, 1, 1⟩ obsW3 :=
  (eig_and_direct_selection_agree id covW3 dataW3 (fun _ => 0) lamW3 vmatW3
    1 1 obsW3 (fun k => by simp [vmatW3])
    (fun k => by simp [covW3, vmatW3, lamW3])
    (fun k j => by fin_cases j <;> norm_num [lamW3])).2.2

/-- Claim C4: for every arm `k` and context `b` of the batch, with `x`
the solve result for that context, the score equals
`data_vector[k] . x + alpha * sqrt(context . x)`; the point estimate is
`data_vector[k] . x` and the squared confidence width is
`context . x`. -/
theorem score_decomposition (sqrtF : F → F) (v : PolicyVars F K d)
    (observation : Matrix (Fin B) (Fin d) F) (k : Fin K) (b : Fin B) :
    pValues sqrtF v observation k b =
      v.dataVector k ⬝ᵥ solveForContext v k (observation b) +
        v.alpha * sqrtF (observation b ⬝ᵥ solveForContext v k (observation b)) ∧
    estMeanReward v observation k b =
      v.dataVector k ⬝ᵥ solveForContext v k (observation b) ∧
    confidenceIntervals v observation k b =
      observation b ⬝ᵥ solveForContext v k (observation b) :=
  ⟨by simp [pValues, estMeanReward_eq, confidenceIntervals_eq],
    estMeanReward_eq v observation k b,
    confidenceIntervals_eq v observation k b⟩

/-- Claim C5: for each context independently, the policy chooses the arm
with the highest score; on ties the lowest arm index wins (first-max
semantics), and the chosen action for a context depends on no other
context of the batch. -/
theorem chosen_action_first_argmax (sqrtF : F → F) (v : PolicyVars F K d)
    (observation : Matrix (Fin B) (Fin d) F) (b : Fin B) (hK : 0 < K) :
    ∃ hj : chosenActions sqrtF v observation b < K,
      (∀ k : Fin K, pValues sqrtF v observation k b ≤
        pValues sqrtF v observation
          ⟨chosenActions sqrtF v observation b, hj⟩ b) ∧
      (∀ k : Fin K, (k : ℕ) < chosenActions sqrtF v observation b →
        pValues sqrtF v observation k b <
          pValues sqrtF v observation
            ⟨chosenActions sqrtF v observation b, hj⟩ b) ∧
      ∀ observation2 : Matrix (Fin B) (Fin d) F,
        (∀ c : Fin d, observation2 b c = observation b c) →
          chosenActions sqrtF v observation2 b =
            chosenActions sqrtF v observation b := by
  have hlen : (List.ofFn fun k : Fin K =>
      pValues sqrtF v observation k b).length = K :=
    List.length_ofFn _
  have hl : 0 < (List.ofFn fun k : Fin K =>
      pValues sqrtF v observation k b).length := by
    rw [hlen]
    exact hK
  obtain ⟨h1, h2, h3⟩ :=
    argmaxFirst_spec (List.ofFn fun k : Fin K => pValues sqrtF v observation k b)
      hl (pValues sqrtF v observation ⟨0, hK⟩ b)
  have hval : ∀ k : Fin K,
      (List.ofFn fun k : Fin K => pValues sqrtF v observation k b).getD (k : ℕ)
        (pValues sqrtF v observation ⟨0, hK⟩ b) =
      pValues sqrtF v observation k b := by
    intro k
    rw [List.getD_eq_getElem _ _ (by rw [hlen]; exact k.isLt)]
    simp
  have hchosen : chosenActions sqrtF v observation b =
      argmaxFirst (List.ofFn fun k : Fin K => pValues sqrtF v observation k b) :=
    rfl
  have hjlt : chosenActions sqrtF v observation b < K := by
    rw [hchosen]
    exact lt_of_lt_of_eq h1 hlen
  have hvj : (List.ofFn fun k : Fin K => pValues sqrtF v observation k b).getD
      (argmaxFirst (List.ofFn fun k : Fin K => pValues sqrtF v observation k b))
      (pValues sqrtF v observation ⟨0, hK⟩ b) =
      pValues sqrtF v observation
        ⟨chosenActions sqrtF v observation b, hjlt⟩ b :=
    hval ⟨chosenActions sqrtF v observation b, hjlt⟩
  refine ⟨hjlt, ?_, ?_, ?_⟩
  · intro k
    have h := h2 (k : ℕ) (by rw [hlen]; exact k.isLt)
    rw [hval k, hvj] at h
    exact h
  · intro k hk
    have h := h3 (k : ℕ) hk
    rw [hval k, hvj] at h
    exact h
  · intro observation2 hobs
    have hrow : observation2 b = observation b := funext hobs
    have hpe : ∀ k : Fin K,
        pValues sqrtF v observation2 k b = pValues sqrtF v observation k b := by
      intro k
      calc pValues sqrtF v observation2 k b
          = v.dataVector k ⬝ᵥ solveForContext v k (observation2 b) +
              v.alpha * sqrtF
                (observation2 b ⬝ᵥ solveForContext v k (observation2 b)) := by
            simp [pValues, estMeanReward_eq, confidenceIntervals_eq]
        _ = v.dataVector k ⬝ᵥ solveForContext v k (observation b) +
              v.alpha * sqrtF
                (observation b ⬝ᵥ solveForContext v k (observation b)) := by
            rw [hrow]
        _ = pValues sqrtF v observation k b := by
            simp [pValues, estMeanReward_eq, confidenceIntervals_eq]
    have hlists : (List.ofFn fun k : Fin K => pValues sqrtF v observation2 k b) =
        List.ofFn fun k : Fin K => pValues sqrtF v observation k b :=
      congrArg List.ofFn (funext hpe)
    show argmaxFirst (List.ofFn fun k : Fin K =>
        pValues sqrtF v observation2 k b) =
      chosenActions sqrtF v observation b
    rw [hlists, hchosen]

/-- Claim C5 witness: a concrete two-arm rational store; the chosen
action index is in range. -/
theorem chosen_action_first_argmax_witness :
    chosenActions id vW5 obsW5 (0 : Fin 1) < 2 := by
  obtain ⟨hj, -⟩ :=
    chosen_action_first_argmax id vW5 obsW5 (0 : Fin 1) (by decide)
  exact hj

/-- Claim C6: `_distribution` is a pure read of the statistics store: it
emits the chosen actions and returns every per-arm statistic
(`cov_matrix`, `data_vector`, `num_samples`, `eig_vals`, `eig_matrix`)
unchanged. -/
theorem distribution_preserves_statistics (sqrtF : F → F)
    (v : PolicyVars F K d) (observation : Matrix (Fin B) (Fin d) F) :
    policyDistribution sqrtF v observation =
      (chosenActions sqrtF v observation, v) ∧
    (policyDistribution sqrtF v observation).2.covMatrix = v.covMatrix ∧
    (policyDistribution sqrtF v observation).2.dataVector = v.dataVector ∧
    (policyDistribution sqrtF v observation).2.numSamples = v.numSamples ∧
    (policyDistribution sqrtF v observation).2.eigVals = v.eigVals ∧
    (policyDistribution sqrtF v observation).2.eigMatrix = v.eigMatrix :=
  ⟨rfl, rfl, rfl, rfl, rfl, rfl⟩

/-! ### Claims about construction and call validation -/

/-- Claim C7 counterexample: a configuration whose `cov_matrix` length
equals the action-space cardinality (both 1) still fails construction,
because its `data_vector` list has a different length; so construction
failure does not imply an arm-count mismatch. -/
theorem construction_fails_despite_matching_arm_count :
    (1 = 0 + 1) ∧
    linUCBPolicyInitChecks 1 0 1 0 4 4 4 =
      Except.error ConfigError.covDataSizeMismatch :=
  ⟨rfl, rfl⟩

/-- Claim C7 (amended): if the length of `cov_matrix` differs from the
action-space cardinality `action_spec.maximum + 1`, construction fails
with a configuration error, and the check is part of construction
itself, before any selection call; the converse fails because
construction also rejects other configuration mismatches. -/
theorem construction_rejects_arm_count_mismatch
    (covLen dataLen numSamplesLen actionMax obsDim covDim dataDim : ℕ)
    (h : covLen ≠ actionMax + 1) :
    ∃ e : ConfigError,
      linUCBPolicyInitChecks covLen dataLen numSamplesLen actionMax obsDim
        covDim dataDim = Except.error e := by
  by_cases h1 : covLen = dataLen
  · by_cases h2 : numSamplesLen = covLen
    · have h3 : actionMax + 1 ≠ covLen := fun he => h he.symm
      exact ⟨ConfigError.armCountMismatch, by
        unfold linUCBPolicyInitChecks
        rw [if_neg (not_not_intro h1), if_neg (not_not_intro h2), if_pos h3]⟩
    · exact ⟨ConfigError.numSamplesSizeMismatch, by
        unfold linUCBPolicyInitChecks
        rw [if_neg (not_not_intro h1), if_pos h2]⟩
  · exact ⟨ConfigError.covDataSizeMismatch, by
      unfold linUCBPolicyInitChecks
      rw [if_pos h1]⟩

/-- Claim C7 (amended) witness: two configured arms against a three-arm
action spec fail construction. -/
theorem construction_rejects_arm_count_mismatch_witness :
    ∃ e : ConfigError,
      linUCBPolicyInitChecks 2 2 2 2 4 4 4 = Except.error e :=
  construction_rejects_arm_count_mismatch 2 2 2 2 4 4 4 (by decide)

/-- Claim C8: for equally structured action specs and outputs, the
`action` call fails with a dtype mismatch exactly when some entry of the
output has an element type different from the one declared (including a
single mismatching entry of a list-structured action), and succeeds
exactly when every element type matches. -/
theorem action_dtype_validation (specDtypes outputDtypes : List Dtype)
    (h : specDtypes.length = outputDtypes.length) :
    (policyActionCall specDtypes outputDtypes = Except.error () ↔
      specDtypes ≠ outputDtypes) ∧
    (policyActionCall specDtypes outputDtypes = Except.ok outputDtypes ↔
      specDtypes = outputDtypes) := by
  have hall : ((specDtypes.zip outputDtypes).all fun p =>
      decide (p.1 = p.2)) = true ↔ specDtypes = outputDtypes := by
    induction specDtypes generalizing outputDtypes with
    | nil =>
      cases outputDtypes with
      | nil => simp
      | cons b o => simp at h
    | cons a s ih =>
      cases outputDtypes with
      | nil => simp at h
      | cons b o =>
        have hlen : s.length = o.length := Nat.succ_injective h
        simp [List.all_cons, ih o hlen, List.cons.injEq]
  by_cases hb : ((specDtypes.zip outputDtypes).all fun p =>
      decide (p.1 = p.2)) = true
  · have hse : specDtypes = outputDtypes := hall.mp hb
    subst hse
    simp [policyActionCall, hb]
  · have hse : specDtypes ≠ outputDtypes := fun he => hb (hall.mpr he)
    simp [policyActionCall, hb, hse]

/-- Claim C8 witness: the list-structured spec of
`TFPolicyMismatchedDtypesListAction` (int64, int32) against an output of
(int64, int64) fails, and the fully matching pair succeeds. -/
theorem action_dtype_validation_witness :
    policyActionCall [Dtype.int64, Dtype.int32] [Dtype.int64, Dtype.int64] =
      Except.error () ∧
    policyActionCall [Dtype.int64, Dtype.int64] [Dtype.int64, Dtype.int64] =
      Except.ok [Dtype.int64, Dtype.int64] :=
  ⟨(action_dtype_validation [Dtype.int64, Dtype.int32]
      [Dtype.int64, Dtype.int64] (by decide)).1.mpr (by decide),
    (action_dtype_validation [Dtype.int64, Dtype.int64]
      [Dtype.int64, Dtype.int64] (by decide)).2.mpr (by decide)⟩

/-! ### Claim about the environment adapter -/

/-- Claim C10: the adapter auto-resets — a `step` on a freshly created
wrapper emits a FIRST time step; a `step` while no episode is in
progress behaves exactly like `reset`; and after a LAST time step the
next `step` emits a FIRST time step, never a mid-episode one. -/
theorem gym_wrapper_auto_reset {S A : Type} (g : GymEnv S A)
    (w : WrapperState S) (a a2 : A) :
    (wrapperStep g (gymWrapperCreate g) a).2 = StepType.first ∧
    (w.done = true → wrapperStep g w a = wrapperReset g) ∧
    ((wrapperStep g w a).2 = StepType.last →
      (wrapperStep g (wrapperStep g w a).1 a2).2 = StepType.first) ∧
    ((wrapperStep g w a).2 = StepType.last →
      (wrapperStep g (wrapperStep g w a).1 a2).2 ≠ StepType.mid) := by
  have hfirst : (wrapperStep g w a).2 = StepType.last →
      (wrapperStep g (wrapperStep g w a).1 a2).2 = StepType.first := by
    intro hl
    by_cases hd : w.done
    · simp [wrapperStep, hd, wrapperReset] at hl
    · by_cases hr : (g.stepFn w.envState a).2
      · simp [wrapperStep, wrapperReset, hd, hr]
      · simp [wrapperStep, hd, hr] at hl
  refine ⟨?_, ?_, hfirst, fun hl => ?_⟩
  · simp [wrapperStep, gymWrapperCreate, wrapperReset]
  · intro hd
    simp [wrapperStep, hd]
  · rw [hfirst hl]
    simp

/-- Claim C10 witness: with a concrete environment that terminates every
episode after one step, the step following a LAST time step is FIRST. -/
theorem gym_wrapper_auto_reset_witness :
    (wrapperStep gEnvW (wrapperStep gEnvW (wrapperReset gEnvW).1 0).1 0).2 =
      StepType.first :=
  (gym_wrapper_auto_reset gEnvW (wrapperReset gEnvW).1 0 0).2.2.1 (by decide)

end LinUCB
